import Mathlib

/-!
Shallow embedding of VLC's freetype font management core
(`modules/text_renderer/freetype/platform_fonts.c`) and proofs about it.

Strings are modelled as `List Char`, machine integers as `Int`/`Nat`
(the quantities involved never overflow 32-bit in the scenarios treated),
C integer division by `Int.tdiv` (truncation toward zero), and fallible
operations as `Option`.  External collaborators (the FreeType engine,
platform family enumeration, the attachment table, configuration
constants defined outside this translation unit such as
`STYLE_DEFAULT_FONT_SIZE` and `DEFAULT_FAMILY`) are parameters of
explicit environment records, as the spec treats them as abstract
boundary contracts.  Out-of-memory paths (`calloc`, `strdup`, `asprintf`
failing) are not modelled: the embedding covers the executions in which
allocation succeeds.
-/

namespace PlatformFonts

/-- The double-quote character, written via its code to keep source scanning simple. -/
def dquote : Char := Char.ofNat 34

/-- Whitespace recognised by `TrimWhiteSpace`: space and tab only. -/
def isTrimWS (c : Char) : Bool := c = ' ' || c = '\t'

/-- Drop trailing characters satisfying `p` (mirror of retreating the end pointer). -/
def dropTrailing (p : Char → Bool) (l : List Char) : List Char :=
  (l.reverse.dropWhile p).reverse

/-- Embedding of `TrimWhiteSpace`: advance the start past spaces/tabs, retreat the end
past spaces/tabs. -/
def trimWhiteSpace (l : List Char) : List Char :=
  dropTrailing isTrimWS (l.dropWhile isTrimWS)

/-- Embedding of the body of `AddSingleFamily`: trim the token, strip one enclosing pair
of double quotes (the pointer test `psz_end > psz_start && *psz_start == c && psz_end[-1] == c`),
and keep the result only if it is still non-empty. -/
def addSingleFamily (tok : List Char) : Option (List Char) :=
  let t := trimWhiteSpace tok
  let t2 :=
    if t ≠ [] ∧ t.head? = some dquote ∧ t.getLast? = some dquote then
      (t.drop 1).dropLast
    else t
  if t2 = [] then none else some t2

/-- Split a character list at commas, keeping empty fields
(`"a,,b"` gives three fields). -/
def splitComma : List Char → List (List Char)
  | [] => [[]]
  | c :: rest =>
    match splitComma rest with
    | t :: ts => if c = ',' then [] :: t :: ts else (c :: t) :: ts
    | [] => [[c]]

/-- Tokens produced by `strtok_r` with delimiter `","`: the maximal non-empty
runs of non-comma characters, in order. -/
def strtokComma (l : List Char) : List (List Char) :=
  (splitComma l).filter (fun t => !t.isEmpty)

/-- Embedding of `SplitIntoSingleFamily`: tokenize the spec string at commas with
`strtok_r`, clean each token with `AddSingleFamily`, collect the survivors in order. -/
def splitIntoSingleFamily (spec : List Char) : List (List Char) :=
  (strtokComma spec).filterMap addSingleFamily

/-- Token cleaning following the spec's words (§4.1): trim spaces/tabs, strip a token
wrapped in a matching *pair* of enclosing double quotes (a pair needs two characters,
so the token must have length at least two; an unmatched quote stays a literal
character), discard tokens that become empty. -/
def specClean (tok : List Char) : Option (List Char) :=
  let t := trimWhiteSpace tok
  let t2 :=
    if 2 ≤ t.length ∧ t.head? = some dquote ∧ t.getLast? = some dquote then
      (t.drop 1).dropLast
    else t
  if t2 = [] then none else some t2

/-- Amended token cleaning: identical to `specClean` except that the quote-stripping
test only requires the token to be non-empty, so a token consisting of a single
double quote is stripped (its one character serving as both the opening and the
closing quote) and then discarded. -/
def specCleanAmended (tok : List Char) : Option (List Char) :=
  let t := trimWhiteSpace tok
  let t2 :=
    if 1 ≤ t.length ∧ t.head? = some dquote ∧ t.getLast? = some dquote then
      (t.drop 1).dropLast
    else t
  if t2 = [] then none else some t2

/-- Modelled from the spec words of the Family Spec Parser (§4.1): split on commas,
then clean each token with `specClean`, keeping order. Used only to compare with the
embedding of the source. -/
def splitIntoSingleFamilySpec (spec : List Char) : List (List Char) :=
  (splitComma spec).filterMap specClean

/-- The parser spec as amended (single-quote tokens also stripped and dropped). -/
def splitIntoSingleFamilySpecAmended (spec : List Char) : List (List Char) :=
  (splitComma spec).filterMap specCleanAmended

/-! ## Data model: `vlc_font_t` and `vlc_family_t`

A `vlc_font_t` carries its source file (or attachment reference) `psz_fontfile`,
face index, bold/italic flags, and a lazily opened face; a `vlc_family_t` carries a
name and the ordered list of its fonts (`p_next` chains become `List`).  The lazily
opened `p_face` pointer is abstracted by the environment function `faceOf` below:
`LoadFace` is deterministic for a fixed source and default style, so "load the face
of a font, caching it in `p_face`" is a pure partial function of the font. -/

structure VFont where
  fontfile : List Char
  index : Int
  bold : Bool
  italic : Bool
deriving DecidableEq, Repr

structure VFamily where
  name : List Char
  fonts : List VFont
deriving DecidableEq, Repr

/-- Environment of the resolution operations: the deterministic outcome of lazily
opening a font's face (`GetFace`'s call to `LoadFace` with the default style), glyph
coverage of an opened face (`FT_Get_Char_Index` being nonzero), the two relevant
entries of `fallback_map` (`FB_LIST_ATTACHMENTS` and `FB_LIST_DEFAULT`), the
platform family enumeration `pf_get_family`, the optional system fallback
enumeration `pf_get_fallbacks`, and the configured `DEFAULT_FAMILY` name. -/
structure ResEnv where
  faceOf : VFont → Option Nat
  hasGlyph : Nat → Nat → Bool
  attachList : Option (List VFamily)
  defaultList : Option (List VFamily)
  getFamily : List Char → Option VFamily
  getFallbacks : Option (List Char → Nat → Option (List VFamily))
  defaultFamilyName : List Char

/-- Embedding of `GetFace`: load the font's face if needed, then return it only when
`FT_Get_Char_Index` reports a glyph for the codepoint. -/
def getFace (env : ResEnv) (f : VFont) (cp : Nat) : Option Nat :=
  match env.faceOf f with
  | none => none
  | some h => if env.hasGlyph h cp then some h else none

/-- Lowercase comparison used for `strcasecmp` on family names. -/
def lowerEq (a b : List Char) : Bool :=
  a.map Char.toLower == b.map Char.toLower

/-! ## Best-Font Scorer (`GetBestFont`) -/

/-- The additive score `GetBestFont` computes for one candidate font: 1000 when a
codepoint constraint is given and the candidate's opened face covers it, 100 when
the bold flags agree, 10 when the italic flags agree. -/
def fontScore (env : ResEnv) (f : VFont) (bBold bItalic : Bool) (cp : Nat) : Nat :=
  (if cp ≠ 0 ∧ (getFace env f cp).isSome then 1000 else 0)
  + (if f.bold = bBold then 100 else 0)
  + (if f.italic = bItalic then 10 else 0)

/-- The scan of `GetBestFont`: walk the fonts, replacing the current best exactly
when a candidate's score is strictly greater than the best score so far. -/
def bestLoop (env : ResEnv) (bBold bItalic : Bool) (cp : Nat) :
    List VFont → VFont → Nat → VFont
  | [], best, _ => best
  | f :: rest, best, bs =>
    if fontScore env f bBold bItalic cp > bs then
      bestLoop env bBold bItalic cp rest f (fontScore env f bBold bItalic cp)
    else
      bestLoop env bBold bItalic cp rest best bs

/-- Embedding of `GetBestFont`: the best starts as the first font with best score 0;
the result is `none` exactly when the family has no fonts (the C function returns
the initial `p_family->p_fonts`, i.e. `NULL`, in that case). -/
def getBestFont (env : ResEnv) (fam : VFamily) (bBold bItalic : Bool) (cp : Nat) :
    Option VFont :=
  match fam.fonts with
  | [] => none
  | f0 :: _ => some (bestLoop env bBold bItalic cp fam.fonts f0 0)

/-! ## Fallback Search (`SearchFallbacks`) -/

/-- The lazy population step at the top of the `SearchFallbacks` loop: a fallback
entry with an empty font list receives the fonts of the registry family of the same
name (`pf_get_family`), provided that lookup succeeds and has fonts; otherwise the
entry stays as it is (and is then skipped by the cover test). -/
def populateFam (env : ResEnv) (f : VFamily) : VFamily :=
  match f.fonts with
  | [] =>
    match env.getFamily f.name with
    | some t => if t.fonts.isEmpty then f else { f with fonts := t.fonts }
    | none => f
  | _ => f

/-- Cover test of one (populated) fallback entry: its *first* font's opened face
must support the codepoint. -/
def coverPred (env : ResEnv) (cp : Nat) (f : VFamily) : Bool :=
  match f.fonts with
  | [] => false
  | g :: _ => (getFace env g cp).isSome

/-- Embedding of `SearchFallbacks`: walk the fallback forest in order, lazily
populating empty entries, skipping entries that are still empty or whose first font
does not cover the codepoint, and stopping at the first entry that does. -/
def searchFallbacks (env : ResEnv) : List VFamily → Nat → Option VFamily
  | [], _ => none
  | f :: rest, cp =>
    let f2 := populateFam env f
    match f2.fonts with
    | [] => searchFallbacks env rest cp
    | g :: _ =>
      if (getFace env g cp).isSome then some f2 else searchFallbacks env rest cp

/-- Embedding of `SearchFontByFamilyName`: first list entry whose name matches
case-insensitively, whose font list is non-empty and whose first font covers the
codepoint. -/
def searchFontByFamilyName (env : ResEnv) (l : List VFamily) (name : List Char)
    (cp : Nat) : Option VFamily :=
  l.find? (fun p =>
    lowerEq p.name name &&
      (match p.fonts with
       | [] => false
       | g :: _ => (getFace env g cp).isSome))

/-! ## Resolution Orchestrator (`SelectFontWithFamilyFallback`) -/

/-- First element of a list on which `f` succeeds (the `vlc_vector_foreach` loops
that reset `p_family` to `NULL` on a failed iteration and `break` on success). -/
def firstSome {α β : Type} (f : α → Option β) : List α → Option β
  | [] => none
  | a :: rest =>
    match f a with
    | some b => some b
    | none => firstSome f rest

/-- Tier 1 body for one requested family name: search the attachment fallback list
by name, and otherwise probe the registry family of that name directly, requiring a
non-empty font list whose first font covers the codepoint. -/
def tier1Name (env : ResEnv) (name : List Char) (cp : Nat) : Option VFamily :=
  match
    (match env.attachList with
     | some fl => searchFontByFamilyName env fl name cp
     | none => none) with
  | some fam => some fam
  | none =>
    match env.getFamily name with
    | some fam =>
      match fam.fonts with
      | [] => none
      | g :: _ => if (getFace env g cp).isSome then some fam else none
    | none => none

/-- Tier 1: the per-name probe over the requested families in order. -/
def tier1 (env : ResEnv) (names : List (List Char)) (cp : Nat) : Option VFamily :=
  firstSome (fun n => tier1Name env n cp) names

/-- Tier 2: `SearchFallbacks` over the whole attachment fallback list. -/
def tier2 (env : ResEnv) (cp : Nat) : Option VFamily :=
  match env.attachList with
  | some fl => searchFallbacks env fl cp
  | none => none

/-- Tier 3: when the platform provides `pf_get_fallbacks`, ask it for a fallback
forest per requested name and run `SearchFallbacks` over it, accepting only a result
with a non-empty font list. -/
def tier3 (env : ResEnv) (names : List (List Char)) (cp : Nat) : Option VFamily :=
  match env.getFallbacks with
  | none => none
  | some gf =>
    firstSome (fun n =>
      match gf n cp with
      | some fl =>
        match searchFallbacks env fl cp with
        | some fam => if fam.fonts.isEmpty then none else some fam
        | none => none
      | none => none) names

/-- Tier 4: `SearchFallbacks` over the memoized default fallback list. -/
def tier4 (env : ResEnv) (cp : Nat) : Option VFamily :=
  match env.defaultList with
  | some fl => searchFallbacks env fl cp
  | none => none

/-- The code after the tier block of `SelectFontWithFamilyFallback`: substitute the
registry's `DEFAULT_FAMILY` when no family was settled or the settled one has no
fonts, then let `GetBestFont` pick the variant, yielding its (fontfile, index). -/
def finishSelect (env : ResEnv) (pf : Option VFamily) (bBold bItalic : Bool)
    (cp : Nat) : Option (List Char × Int) :=
  let pf2 :=
    match pf with
    | some f => if f.fonts.isEmpty then env.getFamily env.defaultFamilyName else some f
    | none => env.getFamily env.defaultFamilyName
  match pf2 with
  | none => none
  | some f =>
    match getBestFont env f bBold bItalic cp with
    | none => none
    | some font => some (font.fontfile, font.index)

/-- Embedding of `SelectFontWithFamilyFallback`: with a codepoint constraint, try
the four tiers in order, each short-circuiting on first success, and fail when all
four fail; then (in either path) the common tail `finishSelect`. -/
def selectFontWithFamilyFallback (env : ResEnv) (names : List (List Char))
    (bBold bItalic : Bool) (cp : Nat) : Option (List Char × Int) :=
  if cp ≠ 0 then
    match
      (match tier1 env names cp with
       | some f => some f
       | none =>
         match tier2 env cp with
         | some f => some f
         | none =>
           match tier3 env names cp with
           | some f => some f
           | none => tier4 env cp) with
    | none => none
    | some fam => finishSelect env (some fam) bBold bItalic cp
  else
    finishSelect env none bBold bItalic cp

/-! ## Live size computation (`ConvertToLiveSize`) and the face cache (`LoadFace`) -/

/-- The style fields `LoadFace`/`ConvertToLiveSize` read: absolute size
`i_font_size`, relative size `f_font_relsize` (a C `float`, idealized as a rational
number; no claim treated here exercises a nonzero value), and the half-width /
double-width style flags. -/
structure TStyle where
  fontSize : Int
  fontRelSize : Rat
  halfwidth : Bool
  doublewidth : Bool
deriving DecidableEq

/-- Environment of the face cache: the attachment count, the outcome of the three
kinds of engine opens, the charmap and pixel-size checks on the opened face (both
determined by the source and face index, the pixel check also by the requested
width and size), and the configuration inputs of `ConvertToLiveSize`
(`STYLE_DEFAULT_FONT_SIZE`, the output picture height, the global scale percent). -/
structure FTEnv where
  attachCount : Int
  memOpenOK : Int → Int → Bool
  fileOpenOK : List Char → Int → Bool
  charmapOK : List Char → Int → Bool
  pixelOK : List Char → Int → Int → Int → Bool
  outHeight : Int
  scale : Int
  defaultFontSize : Int

/-- Truncation of a rational toward zero, the behaviour of C's float-to-int cast. -/
def ratTrunc (q : Rat) : Int := Int.tdiv q.num (q.den : Int)

/-- Embedding of `ConvertToLiveSize`: the default size, overridden by a nonzero
absolute size, else by a nonzero relative size applied to the output height; then
scaled by `i_scale` with C integer division when the scale is not 100 percent. -/
def convertToLiveSize (env : FTEnv) (st : TStyle) : Int :=
  let base : Int :=
    if st.fontSize ≠ 0 then st.fontSize
    else if st.fontRelSize ≠ 0 then ratTrunc ((env.outHeight : Rat) * st.fontRelSize / 100)
    else env.defaultFontSize
  if env.scale ≠ 100 then Int.tdiv (base * env.scale) 100 else base

/-- The font width derived from the size by the half-width / double-width flags. -/
def widthOf (env : FTEnv) (st : TStyle) : Int :=
  let size := convertToLiveSize env st
  if st.halfwidth then Int.tdiv size 2
  else if st.doublewidth then size * 2
  else size

/-- The composite cache key `"%s - %d - %d - %d"` of the face map.  The formatted
string determines and is determined by this quadruple (the numeric fields contain
no `" - "` separator), so the key is kept as the quadruple itself. -/
structure FaceKey where
  file : List Char
  index : Int
  size : Int
  width : Int
deriving DecidableEq, Repr

/-- The key `LoadFace` builds for a request. -/
def faceKeyOf (env : FTEnv) (file : List Char) (idx : Int) (st : TStyle) : FaceKey :=
  ⟨file, idx, convertToLiveSize env st, widthOf env st⟩

/-- State of the face cache: the dictionary from keys to opened face handles
(handles are identified by allocation order, as each successful engine open yields a
fresh handle), the next fresh handle, and a count of engine open calls made. -/
structure FaceSys where
  faceMap : List (FaceKey × Nat)
  nextHandle : Nat
  openCount : Nat
deriving DecidableEq, Repr

/-- First binding of a key in the face map. -/
def lookupFace : List (FaceKey × Nat) → FaceKey → Option Nat
  | [], _ => none
  | (k, h) :: rest, key => if k = key then some h else lookupFace rest key

/-- Attachment sources are the strings starting with `":/"`. -/
def isAttachPath (l : List Char) : Bool :=
  match l with
  | ':' :: '/' :: _ => true
  | _ => false

/-- Value of a run of leading decimal digits, accumulator style (`atoi` core). -/
def digitsVal : List Char → Int → Int
  | c :: rest, acc =>
    if c.isDigit then digitsVal rest (acc * 10 + ((c.toNat : Int) - 48)) else acc
  | [], acc => acc

/-- Embedding of `atoi`: skip whitespace, read an optional sign, then digits. -/
def atoiL (l : List Char) : Int :=
  match l.dropWhile Char.isWhitespace with
  | '-' :: rest => - digitsVal rest 0
  | '+' :: rest => digitsVal rest 0
  | rest => digitsVal rest 0

/-- The engine-open part of `LoadFace` on a cache miss: for an attachment path, the
index is validated against the attachment count before `FT_New_Memory_Face` is
called (an invalid index makes no engine call at all); any other path goes to
`FT_New_Face`.  (The `":dw/"` stream branch exists only in the `_WIN32` build and
is not part of this embedding.)  Result: (an engine open was attempted, the open
succeeded). -/
def openAttempt (env : FTEnv) (file : List Char) (idx : Int) : Bool × Bool :=
  if isAttachPath file then
    let a := atoiL (file.drop 2)
    if a < 0 ∨ env.attachCount ≤ a then (false, false)
    else (true, env.memOpenOK a idx)
  else (true, env.fileOpenOK file idx)

/-- Embedding of `LoadFace`: compute size, width and the composite key; answer from
the face map on a hit; otherwise open the source, then require the Unicode charmap
selection and the pixel-size setting to succeed — any failure discards the face and
caches nothing — and on success insert the fresh handle under the key. -/
def loadFace (env : FTEnv) (s : FaceSys) (file : List Char) (idx : Int)
    (st : TStyle) : Option Nat × FaceSys :=
  let size := convertToLiveSize env st
  let width := widthOf env st
  let key : FaceKey := ⟨file, idx, size, width⟩
  match lookupFace s.faceMap key with
  | some h => (some h, s)
  | none =>
    let att := openAttempt env file idx
    let s1 : FaceSys :=
      { s with openCount := s.openCount + (if att.1 then 1 else 0) }
    if !att.2 then (none, s1)
    else if !env.charmapOK file idx then (none, s1)
    else if !env.pixelOK file idx width size then (none, s1)
    else (some s1.nextHandle,
          { s1 with faceMap := (key, s1.nextHandle) :: s1.faceMap,
                    nextHandle := s1.nextHandle + 1 })

/-- Well-formedness of a face-cache state: every stored handle was allocated below
the next fresh handle, and distinct entries hold distinct handles (each successful
engine open yields a fresh face). -/
def handlesFresh (s : FaceSys) : Prop :=
  (∀ e ∈ s.faceMap, e.2 < s.nextHandle) ∧
    s.faceMap.Pairwise (fun a b => a.2 ≠ b.2)

/-! ## Family construction (`NewFont`) -/

/-- Embedding of the list insertion of `NewFont`: a freshly built font joins its
parent family at the front when it is plain (neither bold nor italic) and the
current first font is styled; every other insertion appends at the end. -/
def newFont (file : List Char) (idx : Int) (bBold bItalic : Bool)
    (fonts : List VFont) : List VFont :=
  let f : VFont := ⟨file, idx, bBold, bItalic⟩
  match fonts with
  | p0 :: rest =>
    if (p0.bold || p0.italic) && (!bBold && !bItalic) then f :: p0 :: rest
    else (p0 :: rest) ++ [f]
  | [] => [f]

/-- The ordering fact the fallback search relies on: when some font of the list is
plain, the first one is. -/
def plainFirst (fonts : List VFont) : Prop :=
  (∃ g ∈ fonts, g.bold = false ∧ g.italic = false) →
    ∃ h t, fonts = h :: t ∧ h.bold = false ∧ h.italic = false

/-! ## Concrete instances used as witnesses and counterexamples -/

/-- Regular variant of the scoring example family. -/
def regC3 : VFont := ⟨['r'], 0, false, false⟩

/-- Bold variant of the scoring example family. -/
def boldC3 : VFont := ⟨['b'], 0, true, false⟩

/-- Italic variant of the scoring example family; the only variant covering the
example codepoint. -/
def italC3 : VFont := ⟨['i'], 0, false, true⟩

/-- Bold-italic variant of the scoring example family. -/
def boldItalC3 : VFont := ⟨['w'], 0, true, true⟩

/-- Scoring example family with variants Regular, Bold, Italic, BoldItalic. -/
def famC3 : VFamily := ⟨['f'], [regC3, boldC3, italC3, boldItalC3]⟩

/-- Environment for the scoring example: every face opens, and only the italic
(non-bold) variant's face covers codepoint 7. -/
def envC3 : ResEnv where
  faceOf := fun f => if f.italic && !f.bold then some 1 else some 0
  hasGlyph := fun h cp => h == 1 && cp == 7
  attachList := none
  defaultList := none
  getFamily := fun _ => none
  getFallbacks := none
  defaultFamilyName := []

/-- Family used to instantiate the best-font totality/tie-break theorem. -/
def famC4 : VFamily := ⟨['g'], [⟨['p'], 0, false, false⟩, ⟨['q'], 1, false, false⟩]⟩

/-- Environment for the best-font totality witness: no face ever opens, so every
variant scores through style flags only. -/
def envC4 : ResEnv where
  faceOf := fun _ => none
  hasGlyph := fun _ _ => false
  attachList := none
  defaultList := none
  getFamily := fun _ => none
  getFallbacks := none
  defaultFamilyName := []

/-- A fallback entry with no fonts whose name the registry of `envC5` resolves. -/
def lazyFamC5 : VFamily := ⟨['l'], []⟩

/-- The fonts the registry provides for the lazy entry of the fallback example. -/
def lazyFontC5 : VFont := ⟨['L'], 2, false, false⟩

/-- A fallback entry listed after the covering one; never inspected. -/
def lateFamC5 : VFamily := ⟨['z'], [⟨['Z'], 0, false, false⟩]⟩

/-- Environment for the fallback-search witness: faces open iff the font file is
`"C"` or `"L"`, and those faces cover every codepoint; the registry resolves the
name `"l"` to a family holding `lazyFontC5`. -/
def envC5 : ResEnv where
  faceOf := fun f => if f.fontfile = ['C'] || f.fontfile = ['L'] then some 1 else none
  hasGlyph := fun _ _ => true
  attachList := none
  defaultList := none
  getFamily := fun n => if n = ['l'] then some ⟨['l'], [lazyFontC5]⟩ else none
  getFallbacks := none
  defaultFamilyName := []

/-- The single font of the default fallback list in the tier-4 witness. -/
def fontC1 : VFont := ⟨['D'], 3, false, false⟩

/-- The default-fallback family of the tier-4 witness. -/
def famC1 : VFamily := ⟨['d'], [fontC1]⟩

/-- Environment for the tier witness: no attachments, an empty registry, no system
fallback enumeration, and a default fallback list that covers everything — so
tiers 1 to 3 fail and tier 4 succeeds. -/
def envC1 : ResEnv where
  faceOf := fun _ => some 0
  hasGlyph := fun _ _ => true
  attachList := none
  defaultList := some [famC1]
  getFamily := fun _ => none
  getFallbacks := none
  defaultFamilyName := ['d']

/-- The font of the directly requested (and resolvable) family `"a"`. -/
def fontA2 : VFont := ⟨['A'], 0, false, false⟩

/-- The font of the configured default family of `envC2`. -/
def fontD2 : VFont := ⟨['E'], 0, false, false⟩

/-- The requested family `"a"`, resolvable through the registry of `envC2`. -/
def famA2 : VFamily := ⟨['a'], [fontA2]⟩

/-- The configured default family of `envC2`. -/
def famD2 : VFamily := ⟨['d'], [fontD2]⟩

/-- Environment for the no-codepoint counterexample: the registry resolves both the
requested family `"a"` and the default family `"d"`, with distinct font files. -/
def envC2 : ResEnv where
  faceOf := fun _ => some 0
  hasGlyph := fun _ _ => true
  attachList := none
  defaultList := none
  getFamily := fun n =>
    if n = ['a'] then some famA2 else if n = ['d'] then some famD2 else none
  getFallbacks := none
  defaultFamilyName := ['d']

/-- Face-cache environment where every open, charmap and pixel-size step succeeds. -/
def envC7 : FTEnv where
  attachCount := 0
  memOpenOK := fun _ _ => false
  fileOpenOK := fun _ _ => true
  charmapOK := fun _ _ => true
  pixelOK := fun _ _ _ _ => true
  outHeight := 0
  scale := 100
  defaultFontSize := 16

/-- A style with absolute size 10 for the face-cache witness. -/
def stC7a : TStyle := ⟨10, 0, false, false⟩

/-- A style with absolute size 20 for the face-cache witness. -/
def stC7b : TStyle := ⟨20, 0, false, false⟩

/-- The empty face-cache state. -/
def sysC7 : FaceSys := ⟨[], 0, 0⟩

/-- The cache state after acquiring the size-10 face in the witness scenario. -/
def sysC7a : FaceSys := (loadFace envC7 sysC7 ['a'] 0 stC7a).2

/-- The cache state after additionally acquiring the size-20 face. -/
def sysC7b : FaceSys := (loadFace envC7 sysC7a ['a'] 0 stC7b).2

/-- Face-cache environment whose charmap selection always fails, so every open is
discarded. -/
def envC8 : FTEnv where
  attachCount := 0
  memOpenOK := fun _ _ => false
  fileOpenOK := fun _ _ => true
  charmapOK := fun _ _ => false
  pixelOK := fun _ _ _ _ => true
  outHeight := 0
  scale := 100
  defaultFontSize := 16

/-- A style for the failed-open witness. -/
def stC8 : TStyle := ⟨12, 0, false, false⟩

/-- The empty face-cache state of the failed-open witness. -/
def sysC8 : FaceSys := ⟨[], 0, 0⟩

/-- Size-computation environment with a 50 percent scale. -/
def envC10 : FTEnv where
  attachCount := 0
  memOpenOK := fun _ _ => false
  fileOpenOK := fun _ _ => false
  charmapOK := fun _ _ => false
  pixelOK := fun _ _ _ _ => false
  outHeight := 720
  scale := 50
  defaultFontSize := 20

/-- A style requesting no size at all (absolute and relative sizes both zero). -/
def stC10 : TStyle := ⟨0, 0, false, false⟩

/-- A styled (bold) font under which a later plain font must move to the front. -/
def fontC9 : VFont := ⟨['b'], 0, true, false⟩

/-! ## Theorems -/

theorem addSingleFamily_eq_amended (tok : List Char) :
    addSingleFamily tok = specCleanAmended tok := by
  unfold addSingleFamily specCleanAmended
  cases h : trimWhiteSpace tok with
  | nil => simp [h]
  | cons c cs => simp [h]

theorem specCleanAmended_nil : specCleanAmended [] = none := by decide

theorem filterMap_tokens (l : List (List Char)) :
    (l.filter fun t => !t.isEmpty).filterMap addSingleFamily
      = l.filterMap specCleanAmended := by
  induction l with
  | nil => rfl
  | cons t ts ih =>
    by_cases h : t.isEmpty
    · have ht : t = [] := by simpa [List.isEmpty_iff] using h
      simp [ht, specCleanAmended_nil, ih]
    · simp [List.filter_cons, h, List.filterMap_cons, addSingleFamily_eq_amended, ih]

theorem trimWhiteSpace_allWS (w : List Char) (hw : ∀ c ∈ w, isTrimWS c = true) :
    trimWhiteSpace w = [] := by
  unfold trimWhiteSpace dropTrailing
  have h1 : w.dropWhile isTrimWS = [] := List.dropWhile_eq_nil_iff.mpr hw
  simp [h1]

theorem splitComma_allWS (w : List Char) (hw : ∀ c ∈ w, isTrimWS c = true) :
    splitComma w = [w] := by
  induction w with
  | nil => rfl
  | cons c rest ih =>
    have hc : isTrimWS c = true := hw c (by simp)
    have hrest : splitComma rest = [rest] := ih (fun x hx => hw x (by simp [hx]))
    have hnc : c ≠ ',' := by
      intro hcc
      rw [hcc] at hc
      simp [isTrimWS] at hc
    simp [splitComma, hrest, hnc]

/-- Claim C6 counterexample: on the input consisting of one double-quote character,
the source parser strips the single character as both the opening and the closing
quote and drops the emptied token, whereas the claim ("strips a single matching
pair of enclosing double quotes", "unmatched quotes are kept as literal
characters", formalized by `splitIntoSingleFamilySpec`) keeps the lone quote as a
literal one-character family name. -/
theorem C6_counterexample :
    splitIntoSingleFamily [dquote] = []
      ∧ splitIntoSingleFamilySpec [dquote] = [[dquote]]
      ∧ ([] : List (List Char)) ≠ [[dquote]] := by
  refine ⟨by decide, by decide, by decide⟩

/-- Claim C6 (amended): the Family Spec Parser splits on commas, trims spaces and
tabs, strips one pair of enclosing double quotes — where a token consisting of a
single double quote is also stripped, its one character serving as both quotes —
and drops tokens that become empty, preserving order (`splitIntoSingleFamilySpecAmended`);
in particular the empty input parses to the empty sequence, the input
`A, "B C" ,D` parses to `["A", "B C", "D"]`, an input made of spaces and tabs only
parses to the empty sequence, and a quote unmatched within a longer token is kept
as a literal character. -/
theorem C6_split_families :
    (∀ s, splitIntoSingleFamily s = splitIntoSingleFamilySpecAmended s)
      ∧ splitIntoSingleFamily [] = []
      ∧ splitIntoSingleFamily ("A, ".toList ++ [dquote] ++ "B C".toList
          ++ [dquote] ++ " ,D".toList) = ["A".toList, "B C".toList, "D".toList]
      ∧ (∀ w, (∀ c ∈ w, isTrimWS c = true) → splitIntoSingleFamily w = [])
      ∧ splitIntoSingleFamily (dquote :: ['A']) = [[dquote, 'A']] := by
  refine ⟨?_, by decide, by decide, ?_, by decide⟩
  · intro s
    unfold splitIntoSingleFamily splitIntoSingleFamilySpecAmended strtokComma
    exact filterMap_tokens (splitComma s)
  · intro w hw
    unfold splitIntoSingleFamily strtokComma
    rw [splitComma_allWS w hw]
    by_cases hwe : w.isEmpty
    · have : w = [] := by simpa [List.isEmpty_iff] using hwe
      simp [this]
    · have h1 : addSingleFamily w = none := by
        unfold addSingleFamily
        rw [trimWhiteSpace_allWS w hw]
        simp
      simp [hwe, h1]

/-- Witness for C6: instantiating the whitespace-only part at the concrete input
of a space followed by a tab. -/
theorem C6_split_families_witness : splitIntoSingleFamily [' ', '\t'] = [] :=
  C6_split_families.2.2.2.1 [' ', '\t'] (by decide)

/-- Claim C9: `NewFont`'s insertion keeps regular faces first — a plain (non-bold,
non-italic) variant added when the current first variant is styled is moved to the
front, every other insertion appends at the end; and the plain-first ordering of
the variant list is preserved. -/
theorem C9_newFont :
    ∀ (file : List Char) (idx : Int) (bBold bItalic : Bool) (fonts : List VFont),
      (∀ p0 rest, fonts = p0 :: rest → (p0.bold = true ∨ p0.italic = true) →
        bBold = false → bItalic = false →
        newFont file idx bBold bItalic fonts
          = (⟨file, idx, bBold, bItalic⟩ : VFont) :: fonts)
      ∧ ((fonts = []
            ∨ (∃ p0 rest, fonts = p0 :: rest ∧ p0.bold = false ∧ p0.italic = false)
            ∨ bBold = true ∨ bItalic = true) →
          newFont file idx bBold bItalic fonts
            = fonts ++ [(⟨file, idx, bBold, bItalic⟩ : VFont)])
      ∧ (plainFirst fonts → plainFirst (newFont file idx bBold bItalic fonts)) := by
  intro file idx bBold bItalic fonts
  refine ⟨?_, ?_, ?_⟩
  · intro p0 rest hf hstyled hb hi
    subst hf hb hi
    have hcond : ((p0.bold || p0.italic) && (!false && !false)) = true := by
      rcases hstyled with h | h <;> simp [h]
    simp only [newFont]
    rw [if_pos hcond]
  · intro hcase
    rcases hcase with hnil | ⟨p0, rest, hf, hpb, hpi⟩ | hb | hi
    · simp [hnil, newFont]
    · subst hf
      simp [newFont, hpb, hpi]
    · subst hb
      cases fonts with
      | nil => simp [newFont]
      | cons p0 rest => simp [newFont]
    · subst hi
      cases fonts with
      | nil => simp [newFont]
      | cons p0 rest => simp [newFont]
  · intro hpf
    cases fonts with
    | nil =>
      intro hex
      rcases hex with ⟨g, hg, hgb, hgi⟩
      have hgf : g = (⟨file, idx, bBold, bItalic⟩ : VFont) := by
        simpa [newFont] using hg
      exact ⟨⟨file, idx, bBold, bItalic⟩, [], by simp [newFont],
        hgf ▸ hgb, hgf ▸ hgi⟩
    | cons p0 rest =>
      by_cases hcond : ((p0.bold || p0.italic) && (!bBold && !bItalic)) = true
      · intro _
        have hb : bBold = false := by
          revert hcond
          cases bBold <;> simp
        have hi : bItalic = false := by
          revert hcond
          cases bItalic <;> simp
        refine ⟨⟨file, idx, bBold, bItalic⟩, p0 :: rest, ?_, hb, hi⟩
        simp only [newFont]
        rw [if_pos hcond]
      · have hres : newFont file idx bBold bItalic (p0 :: rest)
            = p0 :: (rest ++ [(⟨file, idx, bBold, bItalic⟩ : VFont)]) := by
          simp only [newFont]
          rw [if_neg hcond]
          simp
        rw [hres]
        intro hex
        rcases hex with ⟨g, hg, hgb, hgi⟩
        rcases List.mem_cons.mp hg with rfl | hg2
        · exact ⟨g, rest ++ [⟨file, idx, bBold, bItalic⟩], rfl, hgb, hgi⟩
        rcases List.mem_append.mp hg2 with hg3 | hg4
        · rcases hpf ⟨g, by simp [hg3], hgb, hgi⟩ with ⟨h, t, hht, hhb, hhi⟩
          injection hht with hh ht2
          exact ⟨p0, rest ++ [⟨file, idx, bBold, bItalic⟩], rfl, hh ▸ hhb, hh ▸ hhi⟩
        · have hgf : g = (⟨file, idx, bBold, bItalic⟩ : VFont) := by
            simpa using hg4
          have hb : bBold = false := by rw [hgf] at hgb; exact hgb
          have hi : bItalic = false := by rw [hgf] at hgi; exact hgi
          subst hb hi
          simp at hcond
          exact ⟨p0, rest ++ [⟨file, idx, false, false⟩], rfl, hcond.1, hcond.2⟩

/-- Witness for C9: a plain font added to a family whose first variant is the bold
`fontC9` moves to the front. -/
theorem C9_newFont_witness :
    newFont ['p'] 0 false false [fontC9]
      = (⟨['p'], 0, false, false⟩ : VFont) :: [fontC9] :=
  (C9_newFont ['p'] 0 false false [fontC9]).1 fontC9 [] rfl (Or.inl rfl) rfl rfl

/-- Claim C10: when a style requests neither an absolute nor a relative font size,
`ConvertToLiveSize` yields the default font size, scaled by the global scale
percentage with C integer division when that scale is not 100 — never the zero
requested size. -/
theorem C10_live_size (env : FTEnv) (st : TStyle)
    (h0 : st.fontSize = 0) (h1 : st.fontRelSize = 0) :
    convertToLiveSize env st
      = (if env.scale ≠ 100 then Int.tdiv (env.defaultFontSize * env.scale) 100
         else env.defaultFontSize) := by
  unfold convertToLiveSize
  simp [h0, h1]

/-- Witness for C10: with default size 20 and a 50 percent scale, a zero-size
request yields 10. -/
theorem C10_live_size_witness : convertToLiveSize envC10 stC10 = 10 := by
  rw [C10_live_size envC10 stC10 (by decide) (by decide)]
  decide

/-- Characterization of the `GetBestFont` scan: either nothing beats the running
score and the running best survives, or the result is an element of the list,
scores strictly above the running score and above everything before it, and at
least as high as everything after it. -/
theorem bestLoop_spec (env : ResEnv) (bb bi : Bool) (cp : Nat) :
    ∀ (l : List VFont) (best : VFont) (bs : Nat),
      (bestLoop env bb bi cp l best bs = best ∧
        ∀ g ∈ l, fontScore env g bb bi cp ≤ bs) ∨
      (∃ l1 l2, l = l1 ++ bestLoop env bb bi cp l best bs :: l2 ∧
        bs < fontScore env (bestLoop env bb bi cp l best bs) bb bi cp ∧
        (∀ g ∈ l1,
          fontScore env g bb bi cp
            < fontScore env (bestLoop env bb bi cp l best bs) bb bi cp) ∧
        (∀ g ∈ l2,
          fontScore env g bb bi cp
            ≤ fontScore env (bestLoop env bb bi cp l best bs) bb bi cp)) := by
  intro l
  induction l with
  | nil =>
    intro best bs
    exact Or.inl ⟨rfl, by simp⟩
  | cons f rest ih =>
    intro best bs
    have heq0 : bestLoop env bb bi cp (f :: rest) best bs
        = if fontScore env f bb bi cp > bs then
            bestLoop env bb bi cp rest f (fontScore env f bb bi cp)
          else bestLoop env bb bi cp rest best bs := rfl
    by_cases h : fontScore env f bb bi cp > bs
    · have heq : bestLoop env bb bi cp (f :: rest) best bs
          = bestLoop env bb bi cp rest f (fontScore env f bb bi cp) := by
        rw [heq0, if_pos h]
      rw [heq]
      rcases ih f (fontScore env f bb bi cp) with ⟨he, hall⟩ | ⟨l1, l2, hsplit, hgt, hlt, hle⟩
      · right
        refine ⟨[], rest, by simp [he], ?_, by simp, ?_⟩
        · rw [he]; exact h
        · intro g hg; rw [he]; exact hall g hg
      · right
        refine ⟨f :: l1, l2, congrArg (List.cons f) hsplit, lt_trans h hgt, ?_, hle⟩
        intro g hg
        rcases List.mem_cons.mp hg with rfl | hg2
        · exact hgt
        · exact hlt g hg2
    · have heq : bestLoop env bb bi cp (f :: rest) best bs
          = bestLoop env bb bi cp rest best bs := by
        rw [heq0, if_neg h]
      rw [heq]
      rcases ih best bs with ⟨he, hall⟩ | ⟨l1, l2, hsplit, hgt, hlt, hle⟩
      · left
        refine ⟨he, ?_⟩
        intro g hg
        rcases List.mem_cons.mp hg with rfl | hg2
        · exact Nat.le_of_not_lt h
        · exact hall g hg2
      · right
        refine ⟨f :: l1, l2, congrArg (List.cons f) hsplit, hgt, ?_, hle⟩
        intro g hg
        rcases List.mem_cons.mp hg with rfl | hg2
        · exact lt_of_le_of_lt (Nat.le_of_not_lt h) hgt
        · exact hlt g hg2

/-- Full characterization of `GetBestFont` on a non-empty family: it returns some
variant of the family, everything strictly before the returned variant scores
strictly less, everything in the family scores at most as much, and when no
variant scores above zero the first variant is returned. -/
theorem getBestFont_spec (env : ResEnv) (fam : VFamily) (bb bi : Bool) (cp : Nat)
    (f0 : VFont) (rest : List VFont) (hf : fam.fonts = f0 :: rest) :
    ∃ r, getBestFont env fam bb bi cp = some r ∧
      (∃ l1 l2, fam.fonts = l1 ++ r :: l2 ∧
        (∀ g ∈ l1, fontScore env g bb bi cp < fontScore env r bb bi cp)) ∧
      (∀ g ∈ fam.fonts, fontScore env g bb bi cp ≤ fontScore env r bb bi cp) ∧
      ((∀ g ∈ fam.fonts, fontScore env g bb bi cp = 0) → r = f0) := by
  have hbf : getBestFont env fam bb bi cp
      = some (bestLoop env bb bi cp (f0 :: rest) f0 0) := by
    simp only [getBestFont, hf]
  rcases bestLoop_spec env bb bi cp (f0 :: rest) f0 0 with
    ⟨he, hall⟩ | ⟨l1, l2, hsplit, hgt, hlt, hle⟩
  · refine ⟨f0, by rw [hbf, he], ⟨[], rest, by simp [hf], by simp⟩, ?_, fun _ => rfl⟩
    intro g hg
    rw [hf] at hg
    exact le_trans (hall g hg) (Nat.zero_le _)
  · set r := bestLoop env bb bi cp (f0 :: rest) f0 0 with hr
    refine ⟨r, by rw [hbf], ⟨l1, l2, by rw [hf, hsplit], hlt⟩, ?_, ?_⟩
    · intro g hg
      rw [hf, hsplit] at hg
      rcases List.mem_append.mp hg with hg1 | hg2
      · exact le_of_lt (hlt g hg1)
      rcases List.mem_cons.mp hg2 with rfl | hg3
      · exact le_refl _
      · exact hle g hg3
    · intro hzero
      exfalso
      have hrmem : r ∈ fam.fonts := by
        rw [hf, hsplit]
        exact List.mem_append.mpr (Or.inr (List.mem_cons.mpr (Or.inl rfl)))
      have := hzero r hrmem
      omega

/-- Claim C3: `GetBestFont` scores candidates additively (1000 for codepoint
coverage when a codepoint constraint is given, 100 for a matching bold flag, 10
for a matching italic flag, the definition `fontScore`) and returns a
highest-scoring variant; consequently, on a family with Regular, Bold, Italic and
BoldItalic variants where only Italic covers the requested codepoint, a
(bold := false, italic := false) request selects the Italic variant. -/
theorem C3_scoring :
    (∀ env fam bb bi cp r, getBestFont env fam bb bi cp = some r →
      ∀ g ∈ fam.fonts, fontScore env g bb bi cp ≤ fontScore env r bb bi cp)
      ∧ getBestFont envC3 famC3 false false 7 = some italC3 := by
  constructor
  · intro env fam bb bi cp r hr g hg
    cases hfonts : fam.fonts with
    | nil => rw [hfonts] at hg; cases hg
    | cons f0 rest =>
      rcases getBestFont_spec env fam bb bi cp f0 rest hfonts with
        ⟨r2, hr2, _, hmax, _⟩
      rw [hr] at hr2
      cases hr2
      exact hmax g hg
  · decide

/-- Witness for C3: the Regular variant of the example family scores no higher
than the selected Italic variant. -/
theorem C3_scoring_witness :
    fontScore envC3 regC3 false false 7 ≤ fontScore envC3 italC3 false false 7 :=
  C3_scoring.1 envC3 famC3 false false 7 italC3 C3_scoring.2 regC3 (by decide)

/-- Claim C4: on a family with at least one variant `GetBestFont` returns some
variant; every variant strictly before the returned one scores strictly less (so
on equal scores the first-encountered variant wins), and when no variant scores
above zero the first variant is returned. -/
theorem C4_best_font_total (env : ResEnv) (fam : VFamily) (bb bi : Bool) (cp : Nat)
    (f0 : VFont) (rest : List VFont) (hf : fam.fonts = f0 :: rest) :
    ∃ r, getBestFont env fam bb bi cp = some r ∧
      (∃ l1 l2, fam.fonts = l1 ++ r :: l2 ∧
        (∀ g ∈ l1, fontScore env g bb bi cp < fontScore env r bb bi cp)) ∧
      ((∀ g ∈ fam.fonts, fontScore env g bb bi cp = 0) → r = f0) := by
  rcases getBestFont_spec env fam bb bi cp f0 rest hf with ⟨r, h1, h2, _, h4⟩
  exact ⟨r, h1, h2, h4⟩

/-- Witness for C4: on a family with two equal-scoring plain variants and no
coverage anywhere, the first variant is returned. -/
theorem C4_best_font_total_witness :
    ∃ r, getBestFont envC4 famC4 true true 5 = some r ∧
      (∃ l1 l2, famC4.fonts = l1 ++ r :: l2 ∧
        (∀ g ∈ l1, fontScore envC4 g true true 5 < fontScore envC4 r true true 5)) ∧
      ((∀ g ∈ famC4.fonts, fontScore envC4 g true true 5 = 0) →
        r = (⟨['p'], 0, false, false⟩ : VFont)) :=
  C4_best_font_total envC4 famC4 true true 5 ⟨['p'], 0, false, false⟩
    [⟨['q'], 1, false, false⟩] rfl

/-- The fallback search is first-match search over the lazily populated forest. -/
theorem searchFallbacks_eq_find (env : ResEnv) (cp : Nat) :
    ∀ l, searchFallbacks env l cp
      = (l.map (populateFam env)).find? (coverPred env cp) := by
  intro l
  induction l with
  | nil => rfl
  | cons f rest ih =>
    have hstep : searchFallbacks env (f :: rest) cp
        = (match (populateFam env f).fonts with
           | [] => searchFallbacks env rest cp
           | g :: _ =>
             if (getFace env g cp).isSome then some (populateFam env f)
             else searchFallbacks env rest cp) := rfl
    rw [hstep]
    cases hfonts : (populateFam env f).fonts with
    | nil =>
      have hcov : coverPred env cp (populateFam env f) = false := by
        simp [coverPred, hfonts]
      simp [hfonts, List.find?_cons, hcov, ih]
    | cons g gs =>
      have hcov : coverPred env cp (populateFam env f)
          = (getFace env g cp).isSome := by
        simp [coverPred, hfonts]
      by_cases hg : (getFace env g cp).isSome = true
      · simp [hfonts, List.find?_cons, hcov, hg]
      · simp [hfonts, List.find?_cons, hcov, hg, ih]

/-- Claim C5: `SearchFallbacks` returns the first family of the forest, in order,
whose first font's opened face covers the codepoint, after populating empty
entries on demand from the registry (`populateFam`) and skipping entries that stay
empty; and once a covering entry is found, the entries after it play no part. -/
theorem C5_search_fallbacks (env : ResEnv) (cp : Nat) :
    (∀ l, searchFallbacks env l cp
        = (l.map (populateFam env)).find? (coverPred env cp))
      ∧ (∀ pre f post,
          coverPred env cp (populateFam env f) = true →
          (∀ g ∈ pre, coverPred env cp (populateFam env g) = false) →
          searchFallbacks env (pre ++ f :: post) cp
            = some (populateFam env f)) := by
  refine ⟨searchFallbacks_eq_find env cp, ?_⟩
  intro pre f post hcov hpre
  rw [searchFallbacks_eq_find env cp]
  rw [List.map_append, List.find?_append]
  have h1 : (pre.map (populateFam env)).find? (coverPred env cp) = none := by
    rw [List.find?_eq_none]
    intro x hx
    rcases List.mem_map.mp hx with ⟨g, hgmem, rfl⟩
    simp [hpre g hgmem]
  rw [h1]
  simp [List.find?_cons, hcov]

/-- Witness for C5: a forest made of a dead entry (name unknown to the registry,
stays empty, skipped), then a lazily populated entry whose registry fonts cover
the codepoint, then a further entry — the search returns the populated second
entry whatever follows it. -/
theorem C5_search_fallbacks_witness :
    searchFallbacks envC5 ([⟨['n'], []⟩] ++ lazyFamC5 :: [lateFamC5]) 9
      = some (populateFam envC5 lazyFamC5) :=
  (C5_search_fallbacks envC5 9).2 [⟨['n'], []⟩] lazyFamC5 [lateFamC5]
    (by decide) (by decide)

/-- A family found by `SearchFallbacks` has a first font, and that font's face
covers the codepoint. -/
theorem searchFallbacks_some_fonts (env : ResEnv) (cp : Nat) :
    ∀ l fam, searchFallbacks env l cp = some fam →
      ∃ g gs, fam.fonts = g :: gs ∧ (getFace env g cp).isSome = true := by
  intro l
  induction l with
  | nil => intro fam h; cases h
  | cons f rest ih =>
    intro fam h
    have hstep : searchFallbacks env (f :: rest) cp
        = (match (populateFam env f).fonts with
           | [] => searchFallbacks env rest cp
           | g :: _ =>
             if (getFace env g cp).isSome then some (populateFam env f)
             else searchFallbacks env rest cp) := rfl
    rw [hstep] at h
    cases hfonts : (populateFam env f).fonts with
    | nil =>
      rw [hfonts] at h
      exact ih fam h
    | cons g gs =>
      rw [hfonts] at h
      dsimp only at h
      by_cases hg : (getFace env g cp).isSome = true
      · rw [if_pos hg] at h
        cases h
        exact ⟨g, gs, hfonts, hg⟩
      · rw [if_neg hg] at h
        exact ih fam h

/-- A family found by tier 4 has a first font. -/
theorem tier4_fonts (env : ResEnv) (cp : Nat) (fam : VFamily)
    (h : tier4 env cp = some fam) : ∃ g gs, fam.fonts = g :: gs := by
  unfold tier4 at h
  cases hd : env.defaultList with
  | none => rw [hd] at h; cases h
  | some fl =>
    rw [hd] at h
    rcases searchFallbacks_some_fonts env cp fl fam h with ⟨g, gs, hf, _⟩
    exact ⟨g, gs, hf⟩

/-- Applying `finishSelect` to a settled family with at least one font always yields a
(fontfile, index) pair. -/
theorem finishSelect_some (env : ResEnv) (fam : VFamily) (bb bi : Bool) (cp : Nat)
    (g : VFont) (gs : List VFont) (hf : fam.fonts = g :: gs) :
    ∃ file idx, finishSelect env (some fam) bb bi cp = some (file, idx) := by
  have hbf : getBestFont env fam bb bi cp
      = some (bestLoop env bb bi cp fam.fonts g 0) := by
    simp only [getBestFont, hf]
  refine ⟨(bestLoop env bb bi cp fam.fonts g 0).fontfile,
    (bestLoop env bb bi cp fam.fonts g 0).index, ?_⟩
  simp only [finishSelect, hf, List.isEmpty_cons, Bool.false_eq_true, if_false]
  rw [← hf, hbf]

/-- Claim C1: with a codepoint constraint, `SelectFontWithFamilyFallback` tries
the four tiers in order — embedded-attachment exact family match, embedded-
attachment fallback search, per-family system fallback search, default fallback
list — each short-circuiting on first success; when tiers 1 to 3 fail but tier 4
finds a family, resolution succeeds through tier 4; when all four tiers fail,
resolution returns none. -/
theorem C1_tiered_resolution (env : ResEnv) (names : List (List Char))
    (bb bi : Bool) (cp : Nat) (hcp : cp ≠ 0) :
    (tier1 env names cp = none → tier2 env cp = none →
      tier3 env names cp = none → tier4 env cp = none →
      selectFontWithFamilyFallback env names bb bi cp = none)
      ∧ (∀ f, tier1 env names cp = some f →
          selectFontWithFamilyFallback env names bb bi cp
            = finishSelect env (some f) bb bi cp)
      ∧ (∀ f, tier1 env names cp = none → tier2 env cp = some f →
          selectFontWithFamilyFallback env names bb bi cp
            = finishSelect env (some f) bb bi cp)
      ∧ (∀ f, tier1 env names cp = none → tier2 env cp = none →
          tier3 env names cp = some f →
          selectFontWithFamilyFallback env names bb bi cp
            = finishSelect env (some f) bb bi cp)
      ∧ (∀ f, tier1 env names cp = none → tier2 env cp = none →
          tier3 env names cp = none → tier4 env cp = some f →
          selectFontWithFamilyFallback env names bb bi cp
            = finishSelect env (some f) bb bi cp
          ∧ ∃ file idx,
              selectFontWithFamilyFallback env names bb bi cp
                = some (file, idx)) := by
  refine ⟨?_, ?_, ?_, ?_, ?_⟩
  · intro h1 h2 h3 h4
    simp [selectFontWithFamilyFallback, hcp, h1, h2, h3, h4]
  · intro f h1
    simp [selectFontWithFamilyFallback, hcp, h1]
  · intro f h1 h2
    simp [selectFontWithFamilyFallback, hcp, h1, h2]
  · intro f h1 h2 h3
    simp [selectFontWithFamilyFallback, hcp, h1, h2, h3]
  · intro f h1 h2 h3 h4
    have hsel : selectFontWithFamilyFallback env names bb bi cp
        = finishSelect env (some f) bb bi cp := by
      simp [selectFontWithFamilyFallback, hcp, h1, h2, h3, h4]
    rcases tier4_fonts env cp f h4 with ⟨g, gs, hf⟩
    rcases finishSelect_some env f bb bi cp g gs hf with ⟨file, idx, hfin⟩
    exact ⟨hsel, file, idx, by rw [hsel, hfin]⟩

/-- Witness for C1: in `envC1` tiers 1 to 3 fail for the requested family list
`["x"]` and codepoint 5, and tier 4 resolves through the default fallback list,
yielding the fontfile `"D"` at index 3. -/
theorem C1_tiered_resolution_witness :
    selectFontWithFamilyFallback envC1 [['x']] false false 5
      = finishSelect envC1 (some famC1) false false 5
    ∧ ∃ file idx,
        selectFontWithFamilyFallback envC1 [['x']] false false 5
          = some (file, idx) :=
  (C1_tiered_resolution envC1 [['x']] false false 5 (by decide)).2.2.2.2
    famC1 rfl rfl rfl rfl

/-- Claim C2 counterexample: in `envC2` the first requested family `"a"` resolves
directly through the registry (to `famA2`, whose only font file is `"A"`), yet the
no-codepoint request still selects the configured default family's font file
`"E"` — the code never consults the requested family when no codepoint constraint
is given, contradicting "uses the first requested family's directly-resolved
Family when that family resolves". -/
theorem C2_counterexample :
    envC2.getFamily [Char.ofNat 97] = some famA2
      ∧ famA2.fonts ≠ []
      ∧ selectFontWithFamilyFallback envC2 [[Char.ofNat 97]] false false 0
          = some ([Char.ofNat 69], 0)
      ∧ some (([Char.ofNat 69] : List Char), (0 : Int)) ≠ some ([Char.ofNat 65], 0) := by
  refine ⟨by decide, by decide, by decide, by decide⟩

/-- Claim C2 (amended): for every request with no codepoint constraint, the
resolution orchestrator ignores the requested family names entirely and always
resolves the configured default family through the family-enumeration
collaborator; in particular a no-codepoint request for an unknown family yields
the default family rather than failing (whenever the default family resolves with
at least one font). -/
theorem C2_default_family (env : ResEnv) (names names2 : List (List Char))
    (bb bi : Bool) :
    selectFontWithFamilyFallback env names bb bi 0 = finishSelect env none bb bi 0
      ∧ selectFontWithFamilyFallback env names bb bi 0
          = selectFontWithFamilyFallback env names2 bb bi 0
      ∧ (∀ fam g gs, env.getFamily env.defaultFamilyName = some fam →
          fam.fonts = g :: gs →
          ∃ file idx,
            selectFontWithFamilyFallback env names bb bi 0 = some (file, idx)) := by
  have h0 : ∀ ns : List (List Char),
      selectFontWithFamilyFallback env ns bb bi 0
        = finishSelect env none bb bi 0 := by
    intro ns
    simp [selectFontWithFamilyFallback]
  refine ⟨h0 names, by rw [h0 names, h0 names2], ?_⟩
  intro fam g gs hget hf
  rw [h0 names]
  have hbf : getBestFont env fam bb bi 0
      = some (bestLoop env bb bi 0 fam.fonts g 0) := by
    simp only [getBestFont, hf]
  refine ⟨(bestLoop env bb bi 0 fam.fonts g 0).fontfile,
    (bestLoop env bb bi 0 fam.fonts g 0).index, ?_⟩
  simp only [finishSelect, hget, hbf]

/-- Witness for C2 (amended): in `envC2` a request for the unknown family `"u"`
with no codepoint yields the default family's font. -/
theorem C2_default_family_witness :
    ∃ file idx,
      selectFontWithFamilyFallback envC2 [['u']] false false 0
        = some (file, idx) :=
  (C2_default_family envC2 [['u']] [] false false).2.2 famD2 fontD2 [] rfl rfl

/-- The first binding a lookup finds is a member of the association list. -/
theorem lookupFace_mem :
    ∀ (m : List (FaceKey × Nat)) (k : FaceKey) (v : Nat),
      lookupFace m k = some v → (k, v) ∈ m := by
  intro m
  induction m with
  | nil => intro k v hl; cases hl
  | cons e rest ih =>
    intro k v hl
    obtain ⟨ke, ve⟩ := e
    have hstep : lookupFace ((ke, ve) :: rest) k
        = if ke = k then some ve else lookupFace rest k := rfl
    rw [hstep] at hl
    by_cases hk : ke = k
    · rw [if_pos hk] at hl
      cases hl
      subst hk
      exact List.mem_cons_self _ _
    · rw [if_neg hk] at hl
      exact List.mem_cons_of_mem _ (ih k v hl)

/-- In a map whose entries carry pairwise distinct handles, lookups of distinct
keys yield distinct handles. -/
theorem lookupFace_distinct :
    ∀ (m : List (FaceKey × Nat)),
      m.Pairwise (fun a b => a.2 ≠ b.2) →
      ∀ (k1 k2 : FaceKey) (v1 v2 : Nat), k1 ≠ k2 →
        lookupFace m k1 = some v1 → lookupFace m k2 = some v2 → v1 ≠ v2 := by
  intro m
  induction m with
  | nil => intro _ k1 k2 v1 v2 _ hl1; cases hl1
  | cons e rest ih =>
    intro hpw k1 k2 v1 v2 hne hl1 hl2
    obtain ⟨ke, ve⟩ := e
    rcases List.pairwise_cons.mp hpw with ⟨hhead, htail⟩
    have hstep1 : lookupFace ((ke, ve) :: rest) k1
        = if ke = k1 then some ve else lookupFace rest k1 := rfl
    have hstep2 : lookupFace ((ke, ve) :: rest) k2
        = if ke = k2 then some ve else lookupFace rest k2 := rfl
    rw [hstep1] at hl1
    rw [hstep2] at hl2
    by_cases hk1 : ke = k1
    · rw [if_pos hk1] at hl1
      cases hl1
      have hk2 : ¬ ke = k2 := fun hc => hne (hk1 ▸ hc)
      rw [if_neg hk2] at hl2
      exact hhead (k2, v2) (lookupFace_mem rest k2 v2 hl2)
    · rw [if_neg hk1] at hl1
      by_cases hk2 : ke = k2
      · rw [if_pos hk2] at hl2
        cases hl2
        intro hc
        exact hhead (k1, v1) (lookupFace_mem rest k1 v1 hl1) hc.symm
      · rw [if_neg hk2] at hl2
        exact ih htail k1 k2 v1 v2 hne hl1 hl2

/-- Behaviour of `LoadFace` on a cache hit: the cached handle is returned and the state is
untouched (in particular no engine open happens). -/
theorem loadFace_hit_eq (env : FTEnv) (s : FaceSys) (file : List Char) (idx : Int)
    (st : TStyle) (h : Nat)
    (hl : lookupFace s.faceMap (faceKeyOf env file idx st) = some h) :
    loadFace env s file idx st = (some h, s) := by
  simp only [faceKeyOf] at hl
  simp only [loadFace, hl]

/-- Behaviour of `LoadFace` on a cache miss, fully characterized: when the open, charmap and
pixel-size steps all succeed, the fresh handle is returned and cached; on any
failure nothing is cached and the result is `none`; in both cases the open
counter advances exactly when an engine open was attempted. -/
theorem loadFace_miss_eq (env : FTEnv) (s : FaceSys) (file : List Char) (idx : Int)
    (st : TStyle)
    (hmiss : lookupFace s.faceMap (faceKeyOf env file idx st) = none) :
    loadFace env s file idx st
      = (if (openAttempt env file idx).2 = true
            ∧ env.charmapOK file idx = true
            ∧ env.pixelOK file idx (widthOf env st) (convertToLiveSize env st) = true
         then (some s.nextHandle,
               ⟨(faceKeyOf env file idx st, s.nextHandle) :: s.faceMap,
                s.nextHandle + 1,
                s.openCount + (if (openAttempt env file idx).1 then 1 else 0)⟩)
         else (none,
               ⟨s.faceMap, s.nextHandle,
                s.openCount + (if (openAttempt env file idx).1 then 1 else 0)⟩)) := by
  simp only [faceKeyOf] at hmiss
  simp only [loadFace, hmiss]
  by_cases ho : (openAttempt env file idx).2 = true <;>
    by_cases hc : env.charmapOK file idx = true <;>
      by_cases hp : env.pixelOK file idx (widthOf env st) (convertToLiveSize env st) = true <;>
        simp [ho, hc, hp, faceKeyOf]

/-- Inversion of a successful `LoadFace`: either the key was cached and the state
is unchanged, or the key was not cached and the fresh handle was inserted. -/
theorem loadFace_some_inv (env : FTEnv) (s : FaceSys) (file : List Char)
    (idx : Int) (st : TStyle) (h : Nat) (s2 : FaceSys)
    (he : loadFace env s file idx st = (some h, s2)) :
    (lookupFace s.faceMap (faceKeyOf env file idx st) = some h ∧ s2 = s)
    ∨ (lookupFace s.faceMap (faceKeyOf env file idx st) = none
        ∧ h = s.nextHandle
        ∧ s2 = ⟨(faceKeyOf env file idx st, h) :: s.faceMap, s.nextHandle + 1,
                s.openCount + (if (openAttempt env file idx).1 then 1 else 0)⟩) := by
  cases hl : lookupFace s.faceMap (faceKeyOf env file idx st) with
  | some h0 =>
    left
    rw [loadFace_hit_eq env s file idx st h0 hl] at he
    injection he with ha hb
    injection ha with ha2
    exact ⟨by rw [ha2], hb.symm⟩
  | none =>
    right
    rw [loadFace_miss_eq env s file idx st hl] at he
    by_cases hcond : (openAttempt env file idx).2 = true
        ∧ env.charmapOK file idx = true
        ∧ env.pixelOK file idx (widthOf env st) (convertToLiveSize env st) = true
    · rw [if_pos hcond] at he
      injection he with ha hb
      injection ha with ha2
      refine ⟨rfl, ha2.symm, ?_⟩
      rw [← hb, ha2]
    · rw [if_neg hcond] at he
      injection he with ha hb
      cases ha

/-- Claim C7: two `LoadFace` acquisitions of the same source and face index — the
second performed on the state the first left behind — return the same handle with
the state (hence the open count) untouched when their composite keys coincide, and
never share a handle when their computed pixel sizes differ. -/
theorem C7_face_cache (env : FTEnv) (s : FaceSys) (file : List Char) (idx : Int)
    (st1 st2 : TStyle) (h1 h2 : Nat) (s1 s2 : FaceSys)
    (hwf : handlesFresh s)
    (e1 : loadFace env s file idx st1 = (some h1, s1))
    (e2 : loadFace env s1 file idx st2 = (some h2, s2)) :
    (faceKeyOf env file idx st1 = faceKeyOf env file idx st2 →
      h2 = h1 ∧ s2 = s1)
    ∧ (convertToLiveSize env st1 ≠ convertToLiveSize env st2 → h1 ≠ h2) := by
  constructor
  · intro hkeq
    rcases loadFace_some_inv env s file idx st1 h1 s1 e1 with
      ⟨hl1, hseq1⟩ | ⟨hl1, hh1, hs1⟩
    · rcases loadFace_some_inv env s1 file idx st2 h2 s2 e2 with
        ⟨hl2, hseq2⟩ | ⟨hl2, hh2, hs2⟩
      · rw [hseq1, ← hkeq, hl1] at hl2
        injection hl2 with hv
        exact ⟨hv.symm, hseq2⟩
      · rw [hseq1, ← hkeq, hl1] at hl2
        cases hl2
    · have hhead : lookupFace ((faceKeyOf env file idx st1, h1) :: s.faceMap)
          (faceKeyOf env file idx st1) = some h1 := by
        have hstep : lookupFace ((faceKeyOf env file idx st1, h1) :: s.faceMap)
            (faceKeyOf env file idx st1)
            = if faceKeyOf env file idx st1 = faceKeyOf env file idx st1 then some h1
              else lookupFace s.faceMap (faceKeyOf env file idx st1) := rfl
        rw [hstep, if_pos rfl]
      rcases loadFace_some_inv env s1 file idx st2 h2 s2 e2 with
        ⟨hl2, hseq2⟩ | ⟨hl2, hh2, hs2⟩
      · rw [hs1] at hl2
        dsimp only at hl2
        rw [← hkeq, hhead] at hl2
        injection hl2 with hv
        exact ⟨hv.symm, hseq2⟩
      · rw [hs1] at hl2
        dsimp only at hl2
        rw [← hkeq, hhead] at hl2
        cases hl2
  · intro hsne
    have hkne : faceKeyOf env file idx st1 ≠ faceKeyOf env file idx st2 := by
      intro hc
      exact hsne (congrArg FaceKey.size hc)
    rcases loadFace_some_inv env s file idx st1 h1 s1 e1 with
      ⟨hl1, hseq1⟩ | ⟨hl1, hh1, hs1⟩
    · rcases loadFace_some_inv env s1 file idx st2 h2 s2 e2 with
        ⟨hl2, hseq2⟩ | ⟨hl2, hh2, hs2⟩
      · rw [hseq1] at hl2
        exact lookupFace_distinct s.faceMap hwf.2 _ _ h1 h2 hkne hl1 hl2
      · rw [hseq1] at hh2
        have hmem := lookupFace_mem s.faceMap _ h1 hl1
        have hlt := hwf.1 (faceKeyOf env file idx st1, h1) hmem
        omega
    · rcases loadFace_some_inv env s1 file idx st2 h2 s2 e2 with
        ⟨hl2, hseq2⟩ | ⟨hl2, hh2, hs2⟩
      · rw [hs1] at hl2
        dsimp only at hl2
        have hstep : lookupFace ((faceKeyOf env file idx st1, h1) :: s.faceMap)
            (faceKeyOf env file idx st2)
            = if faceKeyOf env file idx st1 = faceKeyOf env file idx st2 then some h1
              else lookupFace s.faceMap (faceKeyOf env file idx st2) := rfl
        rw [hstep, if_neg hkne] at hl2
        have hmem := lookupFace_mem s.faceMap _ h2 hl2
        have hlt := hwf.1 (faceKeyOf env file idx st2, h2) hmem
        omega
      · rw [hs1] at hh2
        dsimp only at hh2
        omega

/-- Witness for C7: acquiring the same file at sizes 10 and 20 from the empty
cache yields the distinct handles 0 and 1. -/
theorem C7_face_cache_witness : (0 : Nat) ≠ 1 :=
  (C7_face_cache envC7 sysC7 ['a'] 0 stC7a stC7b 0 1 sysC7a sysC7b
    (by constructor <;> simp [sysC7]) (by decide) (by decide)).2 (by decide)

/-- Claim C8: on a cache miss, `LoadFace` fails exactly when the engine open, the
Unicode charmap selection or the pixel-size setting fails (an invalid attachment
index making the open fail without an engine call); a failure caches nothing, and
an identical later acquisition runs the whole open path again, advancing the open
counter by the same amount as the first attempt. -/
theorem C8_failed_open (env : FTEnv) (s : FaceSys) (file : List Char) (idx : Int)
    (st : TStyle)
    (hmiss : lookupFace s.faceMap (faceKeyOf env file idx st) = none) :
    ((loadFace env s file idx st).1 = none ↔
        ¬((openAttempt env file idx).2 = true
          ∧ env.charmapOK file idx = true
          ∧ env.pixelOK file idx (widthOf env st) (convertToLiveSize env st) = true))
    ∧ ((loadFace env s file idx st).1 = none →
        (loadFace env s file idx st).2.faceMap = s.faceMap
        ∧ (loadFace env ((loadFace env s file idx st).2) file idx st).1 = none
        ∧ (loadFace env ((loadFace env s file idx st).2) file idx st).2.openCount
            = (loadFace env s file idx st).2.openCount
              + ((loadFace env s file idx st).2.openCount - s.openCount)) := by
  have hme := loadFace_miss_eq env s file idx st hmiss
  by_cases hcond : (openAttempt env file idx).2 = true
      ∧ env.charmapOK file idx = true
      ∧ env.pixelOK file idx (widthOf env st) (convertToLiveSize env st) = true
  · rw [hme, if_pos hcond]
    constructor
    · simp [hcond]
    · intro hnone
      simp at hnone
  · rw [hme, if_neg hcond]
    have hmiss2 : lookupFace
        ((⟨s.faceMap, s.nextHandle,
          s.openCount + (if (openAttempt env file idx).1 then 1 else 0)⟩ :
            FaceSys)).faceMap (faceKeyOf env file idx st) = none := hmiss
    have hme2 := loadFace_miss_eq env
      ⟨s.faceMap, s.nextHandle,
        s.openCount + (if (openAttempt env file idx).1 then 1 else 0)⟩
      file idx st hmiss2
    constructor
    · simp [hcond]
    · intro _
      refine ⟨rfl, ?_, ?_⟩
      · simp only
        rw [hme2, if_neg hcond]
      · simp only
        rw [hme2, if_neg hcond]
        simp only
        omega

/-- Witness for C8: with `envC8` (whose charmap selection always fails) the
acquisition from the empty cache fails and caches nothing. -/
theorem C8_failed_open_witness :
    (loadFace envC8 sysC8 ['a'] 0 stC8).1 = none
    ∧ (loadFace envC8 sysC8 ['a'] 0 stC8).2.faceMap = sysC8.faceMap := by
  have h := C8_failed_open envC8 sysC8 ['a'] 0 stC8 (by decide)
  have hn : (loadFace envC8 sysC8 ['a'] 0 stC8).1 = none := h.1.mpr (by decide)
  exact ⟨hn, (h.2 hn).1⟩

end PlatformFonts
